import Mathlib

/-!
# Verification of `gpmp_example05_1d_custom_kernel.py`

Shallow embedding of the GP-interpolation example
`src/examples/gpmp_example05_1d_custom_kernel.py` (the only source file of
the repository), together with models of the parts of the `gpmp` library
that the example calls but whose code is not available
(`gp.kernel.scale`, `gp.kernel.distance`, `gp.kernel.distance_pairwise`,
`gp.kernel.maternp_kernel`, `gp.eps`, `gp.core.Model.predict`).
Those are modelled from the specification and marked as such in their
doc comments.

Point sets are lists of points, a point being a list of real coordinates
(the 2-D arrays of shape (n, d) of the source).  Real numbers stand for
the floating-point numbers of the source; all statements are exact.
-/

/-- A point of the input space: a list of `d` real coordinates. -/
def Point : Type := List ℝ

/-- A point set, array of shape (n, d): a list of `n` points. -/
def PS : Type := List (List ℝ)

/-- Modelled from the spec: `gp.eps`, the machine epsilon of the IEEE-754
double-precision floats used by the library (`2⁻⁵²`); the nugget of the
example is `100 * gp.eps`. -/
noncomputable def eps : ℝ := 2 ^ (-52 : ℤ)

/-- Modelled from the spec: `gp.kernel.scale x invrho`, the "anisotropic
input scaling": every coordinate of every point is multiplied by the
inverse range `invrho`. -/
def scale (x : PS) (invrho : ℝ) : PS :=
  x.map (fun u => u.map (fun c => invrho * c))

/-- Euclidean distance between two points (coordinates paired up). -/
noncomputable def dist2 (u v : List ℝ) : ℝ :=
  Real.sqrt ((List.zipWith (fun a b => (a - b) ^ 2) u v).sum)

/-- Modelled from the spec: `gp.kernel.distance xs ys`, the matrix of
Euclidean distances between all pairs of points, shape (n, m). -/
noncomputable def distance (xs ys : PS) : List (List ℝ) :=
  xs.map (fun u => ys.map (fun v => dist2 u v))

/-- Modelled from the spec: `gp.kernel.distance_pairwise xs ys`, the vector
of Euclidean distances between aligned pairs of points (requires
`|xs| = |ys|`). -/
noncomputable def distance_pairwise (xs ys : PS) : List ℝ :=
  List.zipWith dist2 xs ys

/-- Modelled from the spec: `gp.kernel.maternp_kernel p r`, the Matérn
covariance of the "Matérn class with smoothness parameter p", i.e. with
half-integer regularity `ν = p + 1/2`, in its standard closed form
`exp(-2√ν r) · p!/(2p)! · Σ_{i=0}^{p} (p+i)!/(i!(p-i)!) · (2·2√ν·r/2)^(p-i)`
(Rasmussen–Williams, normalised so that the value at `r = 0` is `1`). -/
noncomputable def maternp_kernel (p : ℕ) (r : ℝ) : ℝ :=
  let c : ℝ := Real.sqrt (2 * p + 1)
  Real.exp (-(c * r)) * ((p.factorial : ℝ) / ((2 * p).factorial : ℝ)) *
    (Finset.range (p + 1)).sum
      (fun i => (((p + i).factorial : ℝ) / ((i.factorial : ℝ) * ((p - i).factorial : ℝ)))
        * (2 * c * r) ^ (p - i))

/-- Result of a kernel evaluation: a covariance matrix (`pairwise=False`)
or a vector of covariances (`pairwise=True`), as in the source where the
same function returns an `nx × ny` array or an `nx` array. -/
inductive KOut : Type where
  | mat : List (List ℝ) → KOut
  | vec : List ℝ → KOut

/-- Apply a scalar function elementwise to a kernel result (the source's
`sigma2 * maternp_kernel(p, K)` applied to either shape of `K`). -/
def KOut.emap (f : ℝ → ℝ) : KOut → KOut
  | .mat M => .mat (M.map (List.map f))
  | .vec v => .vec (v.map f)

/-- The matrix carried by a kernel result (`[]` for a vector result). -/
def KOut.matD : KOut → List (List ℝ)
  | .mat M => M
  | .vec _ => []

/-- The vector carried by a kernel result (`[]` for a matrix result). -/
def KOut.vecD : KOut → List ℝ
  | .mat _ => []
  | .vec v => v

/-- `M + c · I`: add `c` on the diagonal of `M` (the source's
`K + nugget * jnp.eye(K.shape[0])`). -/
def addDiag (c : ℝ) (M : List (List ℝ)) : List (List ℝ) :=
  (List.range M.length).map (fun i =>
    (List.range (M.getD i []).length).map (fun j =>
      (M.getD i []).getD j 0 + if i = j then c else 0))

/-- The diagonal of a square matrix, as a vector. -/
def diagOf (M : List (List ℝ)) : List ℝ :=
  (List.range M.length).map (fun i => (M.getD i []).getD i 0)

/-- Transpose of a matrix whose rows all have the length of the first
row. -/
def mtranspose (M : List (List ℝ)) : List (List ℝ) :=
  (List.range (M.getD 0 []).length).map (fun j =>
    (List.range M.length).map (fun i => (M.getD i []).getD j 0))

/-- The second argument of the source's `kernel(x, y, param, pairwise)`
dispatch, which tests `y is x or y is None`: `same` is a `y` that is the
very object `x` (pointer identity), `none` is the omitted argument, and
`other y` is any distinct object, whose value `y` may or may not equal
the value of `x`. -/
inductive YArg : Type where
  | same : YArg
  | none : YArg
  | other : PS → YArg

/-- Source `zero_mean(x, param)`: always returns `None` (unknown mean). -/
def zero_mean (_x : PS) (_param : Option (List ℝ)) : Option (List (List ℝ)) :=
  Option.none

/-- Source `constant_mean(x, param)`: `jnp.ones((x.shape[0], 1))`, the
(n, 1) all-ones basis matrix of the constant mean. -/
def constant_mean (x : PS) (_param : Option (List ℝ)) : Option (List (List ℝ)) :=
  Option.some (List.replicate x.length [(1 : ℝ)])

/-- Source `kernel_ii_or_tt(x, param, pairwise)`: covariance between
observations (or predictands) at `x`; `p = 2`,
`sigma2 = exp(param[0])`, `invrho = exp(param[1])`,
`nugget = 100 * gp.eps`.  `pairwise=True` returns
`sigma2 * ones(n)`; `pairwise=False` returns
`sigma2 * maternp_kernel(p, distance(xs, xs)) + nugget * eye(n)` with
`xs = scale(x, invrho)`. -/
noncomputable def kernel_ii_or_tt (x : PS) (param : List ℝ) (pairwise : Bool) : KOut :=
  let p : ℕ := 2
  let sigma2 : ℝ := Real.exp (param.getD 0 0)
  let invrho : ℝ := Real.exp (param.getD 1 0)
  let nugget : ℝ := 100 * eps
  if pairwise then
    KOut.vec (List.replicate x.length sigma2)
  else
    let xs := scale x invrho
    let K := distance xs xs
    KOut.mat (addDiag nugget (K.map (List.map (fun r => sigma2 * maternp_kernel p r))))

/-- Source `kernel_it(x, y, param, pairwise)`: covariance between
observations and prediction points; no nugget.  `pairwise=True` returns
the vector of covariances between aligned pairs, `pairwise=False` the
full cross-covariance matrix. -/
noncomputable def kernel_it (x y : PS) (param : List ℝ) (pairwise : Bool) : KOut :=
  let p : ℕ := 2
  let sigma2 : ℝ := Real.exp (param.getD 0 0)
  let invrho : ℝ := Real.exp (param.getD 1 0)
  let xs := scale x invrho
  let ys := scale y invrho
  let K : KOut := if pairwise then KOut.vec (distance_pairwise xs ys)
    else KOut.mat (distance xs ys)
  K.emap (fun r => sigma2 * maternp_kernel p r)

/-- Source `kernel(x, y, param, pairwise)`: dispatches on
`y is x or y is None` to the self-covariance branch `kernel_ii_or_tt`,
and otherwise to the cross-covariance branch `kernel_it`. -/
noncomputable def kernel (x : PS) (y : YArg) (param : List ℝ) (pairwise : Bool) : KOut :=
  match y with
  | .same => kernel_ii_or_tt x param pairwise
  | .none => kernel_ii_or_tt x param pairwise
  | .other y => kernel_it x y param pairwise

/-- Source `covparam = jnp.array([math.log(0.5**2), math.log(1/.7)])`. -/
noncomputable def covparam : List ℝ := [Real.log (0.5 ^ 2), Real.log (1 / 0.7)]

/-- Source line 141 `zpv = np.maximum(zpv, 0)`: elementwise clamp of the
predictive variances at zero. -/
noncomputable def clampVariances (zpv : List ℝ) : List ℝ :=
  zpv.map (fun a => max a 0)

-- Sanity: Matérn value at distance zero is one.
theorem maternp_kernel_zero (p : ℕ) : maternp_kernel p 0 = 1 := by
  have h2p : ((2 * p).factorial : ℝ) ≠ 0 := Nat.cast_ne_zero.mpr (Nat.factorial_ne_zero _)
  have hp : ((p.factorial : ℝ)) ≠ 0 := Nat.cast_ne_zero.mpr (Nat.factorial_ne_zero _)
  have hsum : (Finset.range (p + 1)).sum
      (fun i => (((p + i).factorial : ℝ) / ((i.factorial : ℝ) * ((p - i).factorial : ℝ)))
        * (2 * Real.sqrt (2 * p + 1) * 0) ^ (p - i))
      = ((2 * p).factorial : ℝ) / ((p.factorial : ℝ)) := by
    rw [Finset.sum_eq_single p]
    · simp [Nat.sub_self, two_mul]
    · intro i hi hne
      have hlt : i < p + 1 := Finset.mem_range.mp hi
      have hpos : 0 < p - i := Nat.sub_pos_of_lt (lt_of_le_of_ne (Nat.lt_succ_iff.mp hlt) hne)
      rw [mul_zero, zero_pow (Nat.pos_iff_ne_zero.mp hpos), mul_zero]
    · intro h
      exact absurd (Finset.self_mem_range_succ p) h
  simp only [maternp_kernel]
  rw [hsum, mul_zero, neg_zero, Real.exp_zero, one_mul]
  field_simp

theorem dist2_self (u : List ℝ) : dist2 u u = 0 := by
  unfold dist2
  rw [List.zipWith_same]
  have : (u.map fun a => (a - a) ^ 2) = u.map (fun _ => (0 : ℝ)) := by
    simp
  rw [this]
  simp

theorem dist2_comm (u v : List ℝ) : dist2 u v = dist2 v u := by
  unfold dist2
  rw [List.zipWith_comm (fun a b => (a - b) ^ 2)]
  have hf : (fun (b a : ℝ) => (a - b) ^ 2) = (fun (a b : ℝ) => (a - b) ^ 2) := by
    funext b a
    ring
  rw [hf]

/-! ## Entry-level lemmas for the list matrices -/

theorem list_ext_getD {α : Type} (d : α) (l1 l2 : List α) (hl : l1.length = l2.length)
    (h : ∀ i, i < l1.length → l1.getD i d = l2.getD i d) : l1 = l2 := by
  apply List.ext_getElem hl
  intro i h1 h2
  have hh := h i h1
  rwa [List.getD_eq_getElem _ _ h1, List.getD_eq_getElem _ _ h2] at hh

theorem getD_map_lt {α β : Type} (f : α → β) (l : List α) (d : β) (dd : α) (i : ℕ)
    (hi : i < l.length) : (l.map f).getD i d = f (l.getD i dd) := by
  rw [List.getD_eq_getElem _ _ (by simpa using hi), List.getD_eq_getElem _ _ hi,
    List.getElem_map]

theorem range_getD (n i : ℕ) (hi : i < n) : (List.range n).getD i 0 = i := by
  rw [List.getD_eq_getElem _ _ (by simpa using hi)]
  simp

theorem getD_replicate {α : Type} (a d : α) (n i : ℕ) (hi : i < n) :
    (List.replicate n a).getD i d = a := by
  rw [List.getD_eq_getElem _ _ (by simpa using hi)]
  simp

theorem length_scale (x : PS) (r : ℝ) : (scale x r).length = x.length := by
  simp [scale]

theorem scale_getD (x : PS) (r : ℝ) (i : ℕ) (hi : i < x.length) :
    (scale x r).getD i [] = (x.getD i []).map (fun c => r * c) := by
  unfold scale
  rw [getD_map_lt _ _ _ [] i hi]

theorem length_distance (xs ys : PS) : (distance xs ys).length = xs.length := by
  simp [distance]

theorem distance_row_length (xs ys : PS) (i : ℕ) (hi : i < xs.length) :
    ((distance xs ys).getD i []).length = ys.length := by
  unfold distance
  rw [getD_map_lt _ _ _ [] i hi]
  simp

theorem distance_getD (xs ys : PS) (i j : ℕ) (hi : i < xs.length) (hj : j < ys.length) :
    ((distance xs ys).getD i []).getD j 0 = dist2 (xs.getD i []) (ys.getD j []) := by
  unfold distance
  rw [getD_map_lt _ _ _ [] i hi, getD_map_lt _ _ (0 : ℝ) [] j hj]

theorem length_addDiag (c : ℝ) (M : List (List ℝ)) : (addDiag c M).length = M.length := by
  simp [addDiag]

theorem addDiag_row_length (c : ℝ) (M : List (List ℝ)) (i : ℕ) (hi : i < M.length) :
    ((addDiag c M).getD i []).length = (M.getD i []).length := by
  unfold addDiag
  rw [getD_map_lt _ _ _ 0 i (by simpa using hi), range_getD _ _ hi]
  simp

theorem addDiag_getD (c : ℝ) (M : List (List ℝ)) (i j : ℕ) (hi : i < M.length)
    (hj : j < (M.getD i []).length) :
    ((addDiag c M).getD i []).getD j 0
      = (M.getD i []).getD j 0 + if i = j then c else 0 := by
  unfold addDiag
  rw [getD_map_lt _ _ _ 0 i (by simpa using hi), range_getD _ _ hi,
    getD_map_lt _ _ (0 : ℝ) 0 j (by simpa using hj), range_getD _ _ hj]

theorem length_diagOf (M : List (List ℝ)) : (diagOf M).length = M.length := by
  simp [diagOf]

theorem diagOf_getD (M : List (List ℝ)) (i : ℕ) (hi : i < M.length) :
    (diagOf M).getD i 0 = (M.getD i []).getD i 0 := by
  unfold diagOf
  rw [getD_map_lt _ _ _ 0 i (by simpa using hi), range_getD _ _ hi]

theorem length_mtranspose (M : List (List ℝ)) :
    (mtranspose M).length = (M.getD 0 []).length := by
  simp [mtranspose]

theorem mtranspose_getD (M : List (List ℝ)) (i j : ℕ) (hi : i < M.length)
    (hj : j < (M.getD 0 []).length) :
    ((mtranspose M).getD j []).getD i 0 = (M.getD i []).getD j 0 := by
  unfold mtranspose
  rw [getD_map_lt _ _ _ 0 j (by simpa using hj), range_getD _ _ hj,
    getD_map_lt _ _ (0 : ℝ) 0 i (by simpa using hi), range_getD _ _ hi]

theorem mtranspose_row_length (M : List (List ℝ)) (j : ℕ) (hj : j < (M.getD 0 []).length) :
    ((mtranspose M).getD j []).length = M.length := by
  unfold mtranspose
  rw [getD_map_lt _ _ _ 0 j (by simpa using hj)]
  simp

/-- A square matrix with symmetric entries is fixed by `mtranspose`. -/
theorem mtranspose_eq_self_of_symm (M : List (List ℝ))
    (hsq : ∀ i, i < M.length → (M.getD i []).length = M.length)
    (hsym : ∀ i j, i < M.length → j < M.length →
      (M.getD i []).getD j 0 = (M.getD j []).getD i 0) :
    mtranspose M = M := by
  rcases Nat.eq_zero_or_pos M.length with hn | hn
  · have hM : M = [] := List.length_eq_zero.mp hn
    subst hM
    simp [mtranspose]
  · have h0 : (M.getD 0 []).length = M.length := hsq 0 hn
    apply list_ext_getD []
    · rw [length_mtranspose, h0]
    · intro j hj1
      have hjM : j < M.length := by rwa [length_mtranspose, h0] at hj1
      have hj0 : j < (M.getD 0 []).length := by rwa [length_mtranspose] at hj1
      apply list_ext_getD 0
      · rw [mtranspose_row_length M j hj0, hsq j hjM]
      · intro i hi1
        have hiM : i < M.length := by rwa [mtranspose_row_length M j hj0] at hi1
        rw [mtranspose_getD M i j hiM hj0, hsym i j hiM hjM]

theorem length_distance_pairwise (xs ys : PS) :
    (distance_pairwise xs ys).length = min xs.length ys.length := by
  simp [distance_pairwise]

theorem distance_pairwise_getD (xs ys : PS) (i : ℕ)
    (hi : i < (distance_pairwise xs ys).length) :
    (distance_pairwise xs ys).getD i 0 = dist2 (xs.getD i []) (ys.getD i []) := by
  have hx : i < xs.length := by
    rw [length_distance_pairwise] at hi
    omega
  have hy : i < ys.length := by
    rw [length_distance_pairwise] at hi
    omega
  unfold distance_pairwise at hi ⊢
  rw [List.getD_eq_getElem _ _ hi, List.getElem_zipWith,
    List.getD_eq_getElem _ _ hx, List.getD_eq_getElem _ _ hy]

/-! ## Characterisation of the kernel branches -/

theorem kernel_ii_or_tt_pairwise_eq (x : PS) (param : List ℝ) :
    kernel_ii_or_tt x param true
      = KOut.vec (List.replicate x.length (Real.exp (param.getD 0 0))) := rfl

theorem kernel_ii_or_tt_full_eq (x : PS) (param : List ℝ) :
    kernel_ii_or_tt x param false
      = KOut.mat (addDiag (100 * eps)
          ((distance (scale x (Real.exp (param.getD 1 0)))
              (scale x (Real.exp (param.getD 1 0)))).map
            (List.map (fun r => Real.exp (param.getD 0 0) * maternp_kernel 2 r)))) := rfl

theorem kernel_it_full_eq (x y : PS) (param : List ℝ) :
    kernel_it x y param false
      = KOut.mat ((distance (scale x (Real.exp (param.getD 1 0)))
            (scale y (Real.exp (param.getD 1 0)))).map
          (List.map (fun r => Real.exp (param.getD 0 0) * maternp_kernel 2 r))) := rfl

theorem kernel_it_pairwise_eq (x y : PS) (param : List ℝ) :
    kernel_it x y param true
      = KOut.vec ((distance_pairwise (scale x (Real.exp (param.getD 1 0)))
            (scale y (Real.exp (param.getD 1 0)))).map
          (fun r => Real.exp (param.getD 0 0) * maternp_kernel 2 r)) := rfl

theorem selfK_length (x : PS) (param : List ℝ) :
    ((kernel_ii_or_tt x param false).matD).length = x.length := by
  rw [kernel_ii_or_tt_full_eq]
  simp only [KOut.matD, length_addDiag, List.length_map, length_distance, length_scale]

theorem selfK_row_length (x : PS) (param : List ℝ) (i : ℕ) (hi : i < x.length) :
    (((kernel_ii_or_tt x param false).matD).getD i []).length = x.length := by
  rw [kernel_ii_or_tt_full_eq]
  simp only [KOut.matD]
  have hi1 : i < ((distance (scale x (Real.exp (param.getD 1 0)))
      (scale x (Real.exp (param.getD 1 0)))).map
        (List.map (fun r => Real.exp (param.getD 0 0) * maternp_kernel 2 r))).length := by
    simp only [List.length_map, length_distance, length_scale]
    exact hi
  rw [addDiag_row_length _ _ i hi1,
    getD_map_lt _ _ _ [] i (by simpa only [List.length_map] using hi1)]
  rw [List.length_map, distance_row_length _ _ i (by rw [length_scale]; exact hi), length_scale]

theorem selfK_getD (x : PS) (param : List ℝ) (i j : ℕ) (hi : i < x.length)
    (hj : j < x.length) :
    (((kernel_ii_or_tt x param false).matD).getD i []).getD j 0
      = Real.exp (param.getD 0 0) * maternp_kernel 2
          (dist2 ((scale x (Real.exp (param.getD 1 0))).getD i [])
                 ((scale x (Real.exp (param.getD 1 0))).getD j []))
        + if i = j then 100 * eps else 0 := by
  rw [kernel_ii_or_tt_full_eq]
  simp only [KOut.matD]
  have hxs : (scale x (Real.exp (param.getD 1 0))).length = x.length := length_scale _ _
  have hdl : (distance (scale x (Real.exp (param.getD 1 0)))
      (scale x (Real.exp (param.getD 1 0)))).length = x.length := by
    rw [length_distance, hxs]
  have hi1 : i < ((distance (scale x (Real.exp (param.getD 1 0)))
      (scale x (Real.exp (param.getD 1 0)))).map
        (List.map (fun r => Real.exp (param.getD 0 0) * maternp_kernel 2 r))).length := by
    rw [List.length_map, hdl]
    exact hi
  have hrow : ((distance (scale x (Real.exp (param.getD 1 0)))
      (scale x (Real.exp (param.getD 1 0)))).getD i []).length = x.length := by
    rw [distance_row_length _ _ i (by rw [hxs]; exact hi), hxs]
  have hj1 : j < (((distance (scale x (Real.exp (param.getD 1 0)))
      (scale x (Real.exp (param.getD 1 0)))).map
        (List.map (fun r => Real.exp (param.getD 0 0) * maternp_kernel 2 r))).getD i []).length := by
    rw [getD_map_lt _ _ _ [] i (by simpa only [List.length_map] using hi1), List.length_map,
      hrow]
    exact hj
  rw [addDiag_getD _ _ i j hi1 hj1,
    getD_map_lt _ _ _ [] i (by simpa only [List.length_map] using hi1),
    getD_map_lt _ _ (0 : ℝ) 0 j (by rw [hrow]; exact hj),
    distance_getD _ _ i j (by rw [hxs]; exact hi) (by rw [hxs]; exact hj)]

theorem eps_pos : (0 : ℝ) < eps := by
  unfold eps
  positivity

/-! ## Claims about the kernel -/

/-- C4: for every point set `x` and every parameter vector `param`, the
self-covariance matrix `K = kernel(x, x, param, pairwise=False)` is
symmetric: `K` transposed equals `K` (exactly, hence within any
floating-point tolerance). -/
theorem self_cov_symmetric (x : PS) (param : List ℝ) :
    mtranspose ((kernel x YArg.same param false).matD)
      = (kernel x YArg.same param false).matD := by
  show mtranspose ((kernel_ii_or_tt x param false).matD)
      = (kernel_ii_or_tt x param false).matD
  apply mtranspose_eq_self_of_symm
  · intro i hi
    rw [selfK_length] at hi
    rw [selfK_row_length x param i hi, selfK_length]
  · intro i j hi hj
    rw [selfK_length] at hi hj
    rw [selfK_getD x param i j hi hj, selfK_getD x param j i hj hi,
      dist2_comm]
    congr 1
    by_cases h : i = j
    · simp [h]
    · have h2 : ¬j = i := fun hh => h hh.symm
      simp [h, h2]

/-- C3 (corrected): the pairwise self-covariance is NOT equal to the
diagonal of the full self-covariance matrix; on `x = [[0]]`,
`param = [0, 0]` the diagonal carries an extra nugget `100 * eps`. -/
theorem pairwise_self_cov_ne_diagonal :
    (kernel [[(0 : ℝ)]] YArg.same [0, 0] true).vecD
      ≠ diagOf ((kernel [[(0 : ℝ)]] YArg.same [0, 0] false).matD) := by
  intro h
  have h0 := congrArg (fun l => l.getD 0 0) h
  simp only at h0
  have hL : ((kernel [[(0 : ℝ)]] YArg.same [0, 0] true).vecD).getD 0 0
      = Real.exp 0 := by
    show ((kernel_ii_or_tt [[(0 : ℝ)]] [0, 0] true).vecD).getD 0 0 = Real.exp 0
    rw [kernel_ii_or_tt_pairwise_eq]
    simp only [KOut.vecD, List.length_cons, List.length_nil]
    rw [getD_replicate _ _ 1 0 (by omega)]
    norm_num
  have hlen : ((kernel_ii_or_tt [[(0 : ℝ)]] [0, 0] false).matD).length = 1 :=
    selfK_length _ _
  have hR : (diagOf ((kernel [[(0 : ℝ)]] YArg.same [0, 0] false).matD)).getD 0 0
      = Real.exp 0 + 100 * eps := by
    show (diagOf ((kernel_ii_or_tt [[(0 : ℝ)]] [0, 0] false).matD)).getD 0 0
        = Real.exp 0 + 100 * eps
    rw [diagOf_getD _ 0 (by rw [hlen]; omega),
      selfK_getD [[(0 : ℝ)]] [0, 0] 0 0 (by norm_num) (by norm_num)]
    rw [dist2_self, maternp_kernel_zero]
    norm_num
  rw [hL, hR] at h0
  have : (100 : ℝ) * eps = 0 := by linarith
  have := eps_pos
  linarith

/-- C3 (amended): for every point set `x` and parameter vector `param`,
the diagonal of the full self-covariance matrix equals the pairwise
self-covariance vector with the nugget `100 * eps` added to every entry
(the pairwise branch carries no nugget, the diagonal does). -/
theorem pairwise_self_cov_plus_nugget_eq_diagonal (x : PS) (param : List ℝ) :
    diagOf ((kernel x YArg.same param false).matD)
      = ((kernel x YArg.same param true).vecD).map (fun a => a + 100 * eps) := by
  show diagOf ((kernel_ii_or_tt x param false).matD)
      = ((kernel_ii_or_tt x param true).vecD).map (fun a => a + 100 * eps)
  rw [kernel_ii_or_tt_pairwise_eq]
  simp only [KOut.vecD, List.map_replicate]
  apply list_ext_getD 0
  · rw [length_diagOf, selfK_length, List.length_replicate]
  · intro i hi
    rw [length_diagOf, selfK_length] at hi
    rw [diagOf_getD _ i (by rw [selfK_length]; exact hi),
      selfK_getD x param i i hi hi, dist2_self, maternp_kernel_zero,
      getD_replicate _ _ _ i hi]
    simp

/-- C10: for every point set `x` and parameter vector `param`, the
pairwise self-covariance (with `y` the same object as `x`, or omitted)
is `exp(param[0])` times the all-ones vector of length `x.length`: it
depends only on the number of points and `param[0]`, and carries no
nugget. -/
theorem pairwise_self_cov_const (x : PS) (param : List ℝ) :
    kernel x YArg.same param true
        = KOut.vec (List.replicate x.length (Real.exp (param.getD 0 0)))
      ∧ kernel x YArg.none param true
        = KOut.vec (List.replicate x.length (Real.exp (param.getD 0 0))) :=
  ⟨rfl, rfl⟩

/-- C9: for a `y` that is a distinct object but element-wise equal to
`x`, the dispatch takes the cross-covariance branch `kernel_it`, whose
result contains no nugget, and the self-covariance result is exactly the
cross-covariance result plus `nugget` times the identity matrix. -/
theorem value_equal_cross_vs_self_nugget (x : PS) (param : List ℝ) :
    kernel x (YArg.other x) param false = kernel_it x x param false
      ∧ ∃ M, kernel x (YArg.other x) param false = KOut.mat M
          ∧ kernel x YArg.same param false = KOut.mat (addDiag (100 * eps) M) :=
  ⟨rfl, ⟨((distance (scale x (Real.exp (param.getD 1 0)))
      (scale x (Real.exp (param.getD 1 0)))).map
        (List.map (fun r => Real.exp (param.getD 0 0) * maternp_kernel 2 r))), rfl, rfl⟩⟩

/-- C2: `kernel(x, y, param, pairwise)` dispatches in two branches: when
`y` is the object `x` itself or is `None`, the self-covariance branch
(full `n × n` matrix for `pairwise=False`, length-`n` vector for
`pairwise=True`); for any other `y` the cross-covariance branch
(`n × m` matrix for `pairwise=False`, pointwise covariances of aligned
pairs for `pairwise=True`). -/
theorem kernel_dispatch_branches (x y : PS) (param : List ℝ) (pw : Bool) :
    (kernel x YArg.same param pw = kernel_ii_or_tt x param pw)
    ∧ (kernel x YArg.none param pw = kernel_ii_or_tt x param pw)
    ∧ (kernel x (YArg.other y) param pw = kernel_it x y param pw)
    ∧ (∃ M, kernel_ii_or_tt x param false = KOut.mat M ∧ M.length = x.length
        ∧ ∀ i, i < x.length → (M.getD i []).length = x.length)
    ∧ (∃ v, kernel_ii_or_tt x param true = KOut.vec v ∧ v.length = x.length)
    ∧ (∃ M, kernel_it x y param false = KOut.mat M ∧ M.length = x.length
        ∧ ∀ i, i < x.length → (M.getD i []).length = y.length)
    ∧ (∃ v, kernel_it x y param true = KOut.vec v
        ∧ v.length = min x.length y.length
        ∧ ∀ i, i < v.length → v.getD i 0
            = Real.exp (param.getD 0 0) * maternp_kernel 2
                (dist2 ((scale x (Real.exp (param.getD 1 0))).getD i [])
                       ((scale y (Real.exp (param.getD 1 0))).getD i []))) := by
  refine ⟨rfl, rfl, rfl, ?_, ?_, ?_, ?_⟩
  · refine ⟨_, kernel_ii_or_tt_full_eq x param, ?_, ?_⟩
    · have := selfK_length x param
      rw [kernel_ii_or_tt_full_eq] at this
      exact this
    · intro i hi
      have := selfK_row_length x param i hi
      rw [kernel_ii_or_tt_full_eq] at this
      exact this
  · exact ⟨_, kernel_ii_or_tt_pairwise_eq x param, List.length_replicate _ _⟩
  · refine ⟨_, kernel_it_full_eq x y param, ?_, ?_⟩
    · simp only [List.length_map, length_distance, length_scale]
    · intro i hi
      rw [getD_map_lt _ _ _ [] i
          (by simp only [List.length_map, length_distance, length_scale]; exact hi),
        List.length_map,
        distance_row_length _ _ i (by rw [length_scale]; exact hi), length_scale]
  · refine ⟨_, kernel_it_pairwise_eq x y param, ?_, ?_⟩
    · simp only [List.length_map, length_distance_pairwise, length_scale]
    · intro i hi
      rw [List.length_map] at hi
      rw [getD_map_lt _ _ (0 : ℝ) 0 i hi, distance_pairwise_getD _ _ i hi]

/-- Witness for C2 at the concrete input `x = [[0]]`, `y = [[1]]`,
`param = [0, 0]`. -/
theorem kernel_dispatch_branches_witness :
    ∃ v, kernel_it [[(0 : ℝ)]] [[1]] [0, 0] true = KOut.vec v
      ∧ v.length = 1
      ∧ v.getD 0 0
          = Real.exp (([(0 : ℝ), 0]).getD 0 0) * maternp_kernel 2
              (dist2 ((scale [[(0 : ℝ)]] (Real.exp (([(0 : ℝ), 0]).getD 1 0))).getD 0 [])
                     ((scale [[(1 : ℝ)]] (Real.exp (([(0 : ℝ), 0]).getD 1 0))).getD 0 [])) := by
  obtain ⟨-, -, -, -, -, -, v, hv, hvl, hve⟩ :=
    kernel_dispatch_branches [[(0 : ℝ)]] [[1]] [0, 0] true
  refine ⟨v, hv, ?_, ?_⟩
  · rw [hvl]
    simp
  · exact hve 0 (by rw [hvl]; simp)

/-- C5 (counterexample): the nugget `100 * eps ≈ 2.22e-14` is NOT
approximately `1e-10 * sigma2 = 2.5e-11`: it is not even within a factor
of ten of that value. -/
theorem nugget_not_approx_1e10_sigma2 :
    ¬ ((1 / 10) * ((1 / 10 ^ 10) * Real.exp (covparam.getD 0 0)) ≤ 100 * eps
        ∧ 100 * eps ≤ 10 * ((1 / 10 ^ 10) * Real.exp (covparam.getD 0 0))) := by
  intro h
  obtain ⟨h1, -⟩ := h
  have he : Real.exp (covparam.getD 0 0) = 1 / 4 := by
    show Real.exp (Real.log (0.5 ^ 2)) = 1 / 4
    rw [Real.exp_log (by norm_num)]
    norm_num
  rw [he] at h1
  have heps : eps = ((2 : ℝ) ^ (52 : ℕ))⁻¹ := by
    show ((2 : ℝ) ^ (-52 : ℤ)) = ((2 : ℝ) ^ (52 : ℕ))⁻¹
    rw [zpow_neg]
    norm_num
  rw [heps] at h1
  norm_num at h1

/-- C5 (amended): the example's `covparam = [log(0.5²), log(1/0.7)]`
decodes to `sigma2 = exp(covparam[0]) = 0.25` and
`invrho = exp(covparam[1]) = 1/0.7`; the kernel uses Matérn smoothness
`p = 2` and adds a diagonal nugget of `100 * eps = 100·2⁻⁵² ≈ 2.22e-14`
(independent of `sigma2`) to the self-covariance matrix. -/
theorem covparam_decode :
    Real.exp (covparam.getD 0 0) = 0.25
    ∧ Real.exp (covparam.getD 1 0) = 1 / 0.7
    ∧ eps = 2 ^ (-52 : ℤ)
    ∧ ∀ x : PS, kernel x YArg.same covparam false
        = KOut.mat (addDiag (100 * eps)
            ((distance (scale x (Real.exp (covparam.getD 1 0)))
                (scale x (Real.exp (covparam.getD 1 0)))).map
              (List.map (fun r => Real.exp (covparam.getD 0 0) * maternp_kernel 2 r)))) := by
  refine ⟨?_, ?_, rfl, ?_⟩
  · show Real.exp (Real.log (0.5 ^ 2)) = 0.25
    rw [Real.exp_log (by norm_num)]
    norm_num
  · show Real.exp (Real.log (1 / 0.7)) = 1 / 0.7
    rw [Real.exp_log (by norm_num)]
  · intro x
    exact kernel_ii_or_tt_full_eq x covparam

/-- C6: after the caller-level clamp `zpv = np.maximum(zpv, 0)`, every
element of the variance array is `≥ 0`, and an element that was negative
before the clamp has been zeroed. -/
theorem clamped_variance_nonneg (zpv : List ℝ) :
    (∀ a, a ∈ clampVariances zpv → 0 ≤ a)
    ∧ (∀ i, i < zpv.length → zpv.getD i 0 < 0 → (clampVariances zpv).getD i 0 = 0) := by
  constructor
  · intro a ha
    obtain ⟨b, -, rfl⟩ := List.mem_map.mp ha
    exact le_max_right b 0
  · intro i hi hneg
    unfold clampVariances
    rw [getD_map_lt _ _ (0 : ℝ) 0 i hi]
    exact max_eq_right (le_of_lt hneg)

/-- Witness for C6 at `zpv = [-1, 2]`. -/
theorem clamped_variance_nonneg_witness :
    (0 : ℝ) ≤ max (2 : ℝ) 0 ∧ (clampVariances [(-1 : ℝ), 2]).getD 0 0 = 0 := by
  constructor
  · exact (clamped_variance_nonneg [(-1 : ℝ), 2]).1 (max 2 0)
      (List.mem_map_of_mem _ (by simp : (2 : ℝ) ∈ [(-1 : ℝ), 2]))
  · exact (clamped_variance_nonneg [(-1 : ℝ), 2]).2 0 (by simp)
      (by norm_num [List.getD_cons_zero])

/-- C8: the example's mean functions satisfy the mean-function contract:
`constant_mean x param` is a basis matrix of shape `(n, 1)` with all
entries `1`, and `zero_mean x param` is `None`. -/
theorem mean_functions_contract (x : PS) (param : Option (List ℝ)) :
    zero_mean x param = Option.none
    ∧ ∃ M, constant_mean x param = Option.some M ∧ M.length = x.length
        ∧ ∀ row ∈ M, row = [(1 : ℝ)] := by
  refine ⟨rfl, List.replicate x.length [(1 : ℝ)], rfl, List.length_replicate _ _, ?_⟩
  intro row hrow
  exact List.eq_of_mem_replicate hrow

/-- Witness for C8 at `x = [[5]]`. -/
theorem mean_functions_contract_witness :
    zero_mean [[(5 : ℝ)]] Option.none = Option.none
    ∧ ∃ M, constant_mean [[(5 : ℝ)]] Option.none = Option.some M
        ∧ M.getD 0 [] = [(1 : ℝ)] := by
  obtain ⟨hz, M, hM, hlen, hrows⟩ := mean_functions_contract [[(5 : ℝ)]] Option.none
  refine ⟨hz, M, hM, ?_⟩
  have h0 : 0 < M.length := by
    rw [hlen]
    simp
  rw [List.getD_eq_getElem _ _ h0]
  exact hrows _ (List.getElem_mem h0)

/-! ## The GP predictor (modelled from the spec) -/

open Matrix

/-- Error taxonomy of the predictor (spec section 7). -/
inductive PredictErr : Type where
  | DimensionMismatch : PredictErr
  | SingularSystem : PredictErr

/-- Modelled from the spec: the intrinsic/ordinary-kriging core of
`gp.core.Model.predict` (spec section 4.1, case 2), whose code is not in the
available sources.  It solves the block system
`[K P; Pᵀ 0] · [alpha; beta] = [zi; 0]`, returns the predictive mean
`zpm(j) = k(·,j)ᵀ alpha + Pt(j) beta` and the predictive variance
`zpv(j) = ktt(j) - [k(·,j); Pt(j)]ᵀ M⁻¹ [k(·,j); Pt(j)]`. -/
noncomputable def predictOK {n m q : ℕ}
    (K : Matrix (Fin n) (Fin n) ℝ) (P : Matrix (Fin n) (Fin q) ℝ)
    (k : Matrix (Fin n) (Fin m) ℝ) (Pt : Matrix (Fin m) (Fin q) ℝ)
    (ktt : Fin m → ℝ) (zi : Fin n → ℝ) : (Fin m → ℝ) × (Fin m → ℝ) :=
  let M := fromBlocks K P P.transpose 0
  let sol := M⁻¹ *ᵥ Sum.elim zi 0
  (fun j => (fun i => k i j) ⬝ᵥ (fun i => sol (Sum.inl i))
      + (fun l => Pt j l) ⬝ᵥ (fun l => sol (Sum.inr l)),
   fun j => ktt j - Sum.elim (fun i => k i j) (fun l => Pt j l) ⬝ᵥ
      (M⁻¹ *ᵥ Sum.elim (fun i => k i j) (fun l => Pt j l)))

/-- Modelled from the spec: the simple-kriging case of
`gp.core.Model.predict` (spec section 4.1, case 1), zero prior mean. -/
noncomputable def krigSimple {n m : ℕ}
    (K : Matrix (Fin n) (Fin n) ℝ) (k : Matrix (Fin n) (Fin m) ℝ)
    (ktt : Fin m → ℝ) (zi : Fin n → ℝ) : (Fin m → ℝ) × (Fin m → ℝ) :=
  (fun j => (fun i => k i j) ⬝ᵥ (K⁻¹ *ᵥ zi),
   fun j => ktt j - (fun i => k i j) ⬝ᵥ (K⁻¹ *ᵥ (fun i => k i j)))

/-- C1: with a noiseless kernel (cross covariance at the training points
equal to the training covariance `K`, prior variances `ktt j = K j j`
with no extra nugget), a symmetric `K` and an invertible kriging block
system, predicting at the training points reproduces the data exactly:
`zpm = zi` and `zpv = 0`. -/
theorem predict_interpolates {n q : ℕ} (K : Matrix (Fin n) (Fin n) ℝ)
    (P : Matrix (Fin n) (Fin q) ℝ) (ktt : Fin n → ℝ) (zi : Fin n → ℝ)
    (hsym : K.transpose = K) (hktt : ∀ j, ktt j = K j j)
    (hM : IsUnit (fromBlocks K P P.transpose (0 : Matrix (Fin q) (Fin q) ℝ)).det) :
    (predictOK K P K P ktt zi).1 = zi ∧ (predictOK K P K P ktt zi).2 = fun _ => 0 := by
  have hKs : ∀ a b, K a b = K b a := by
    intro a b
    have h := congrFun (congrFun hsym b) a
    rw [Matrix.transpose_apply] at h
    exact h
  constructor
  · funext j
    have key : (fromBlocks K P P.transpose (0 : Matrix (Fin q) (Fin q) ℝ) *ᵥ
        ((fromBlocks K P P.transpose 0)⁻¹ *ᵥ Sum.elim zi 0)) (Sum.inl j) = zi j := by
      rw [Matrix.mulVec_mulVec, Matrix.mul_nonsing_inv _ hM, Matrix.one_mulVec]
      rfl
    have expand : (fromBlocks K P P.transpose (0 : Matrix (Fin q) (Fin q) ℝ) *ᵥ
        ((fromBlocks K P P.transpose 0)⁻¹ *ᵥ Sum.elim zi 0)) (Sum.inl j)
        = ∑ i, K j i *
            ((fromBlocks K P P.transpose (0 : Matrix (Fin q) (Fin q) ℝ))⁻¹ *ᵥ
              Sum.elim zi 0) (Sum.inl i)
          + ∑ l, P j l *
            ((fromBlocks K P P.transpose (0 : Matrix (Fin q) (Fin q) ℝ))⁻¹ *ᵥ
              Sum.elim zi 0) (Sum.inr l) := by
      show (fun c => fromBlocks K P P.transpose (0 : Matrix (Fin q) (Fin q) ℝ) (Sum.inl j) c)
          ⬝ᵥ _ = _
      rw [dotProduct, Fintype.sum_sum_type]
      rfl
    show (fun i => K i j) ⬝ᵥ
        (fun i => ((fromBlocks K P P.transpose (0 : Matrix (Fin q) (Fin q) ℝ))⁻¹ *ᵥ
          Sum.elim zi 0) (Sum.inl i))
      + (fun l => P j l) ⬝ᵥ
        (fun l => ((fromBlocks K P P.transpose (0 : Matrix (Fin q) (Fin q) ℝ))⁻¹ *ᵥ
          Sum.elim zi 0) (Sum.inr l)) = zi j
    rw [← key, expand, dotProduct, dotProduct]
    congr 1
    exact Finset.sum_congr rfl (fun i _ => by rw [hKs i j])
  · funext j
    show ktt j - Sum.elim (fun i => K i j) (fun l => P j l) ⬝ᵥ
        ((fromBlocks K P P.transpose (0 : Matrix (Fin q) (Fin q) ℝ))⁻¹ *ᵥ
          Sum.elim (fun i => K i j) (fun l => P j l)) = 0
    have hv : Sum.elim (fun i => K i j) (fun l => P j l)
        = fromBlocks K P P.transpose (0 : Matrix (Fin q) (Fin q) ℝ) *ᵥ
            Pi.single (Sum.inl j) 1 := by
      rw [Matrix.mulVec_single]
      funext r
      rcases r with i | l
      · simp
      · simp
    rw [hv, Matrix.mulVec_mulVec, Matrix.nonsing_inv_mul _ hM, Matrix.one_mulVec,
      Matrix.dotProduct_single, Matrix.mulVec_single]
    simp [hktt j]

/-- Witness for C1: one training point, `K = [[1]]`, `P = [[1]]`,
`zi = [3]`; the predictor returns mean `[3]` and variance `0`. -/
theorem predict_interpolates_witness :
    (predictOK (1 : Matrix (Fin 1) (Fin 1) ℝ) (Matrix.of ![![1]]) 1 (Matrix.of ![![1]])
        (fun j => (1 : Matrix (Fin 1) (Fin 1) ℝ) j j) ![3]).1 = ![3]
    ∧ (predictOK (1 : Matrix (Fin 1) (Fin 1) ℝ) (Matrix.of ![![1]]) 1 (Matrix.of ![![1]])
        (fun j => (1 : Matrix (Fin 1) (Fin 1) ℝ) j j) ![3]).2 = fun _ => 0 := by
  apply predict_interpolates (1 : Matrix (Fin 1) (Fin 1) ℝ) (Matrix.of ![![1]])
    (fun j => (1 : Matrix (Fin 1) (Fin 1) ℝ) j j) ![3] Matrix.transpose_one (fun j => rfl)
  rw [Matrix.det_fromBlocks_one₁₁]
  have hprod : ((0 : Matrix (Fin 1) (Fin 1) ℝ)
        - (Matrix.of ![![(1 : ℝ)]]).transpose * Matrix.of ![![(1 : ℝ)]])
      = Matrix.of ![![(-1 : ℝ)]] := by
    ext i j
    fin_cases i
    fin_cases j
    simp [Matrix.mul_apply]
  rw [hprod, Matrix.det_fin_one]
  simp

/-! ## The model object and the checked predict entry point -/

/-- Source `gp.core.Model(mean, kernel, meanparam, covparam)`: the
immutable tuple of a mean function, a covariance function and their
parameter vectors. -/
structure Model : Type where
  mean : PS → Option (List ℝ) → Option (List (List ℝ))
  covariance : PS → YArg → List ℝ → Bool → KOut
  meanparam : Option (List ℝ)
  covparam : List ℝ

/-- Point dimensionality of a point set (length of its first point). -/
def dimOf (x : PS) : ℕ := (x.getD 0 []).length

/-- View a list matrix as an `n × m` function matrix. -/
def toMat (n m : ℕ) (M : List (List ℝ)) : Matrix (Fin n) (Fin m) ℝ :=
  fun i j => (M.getD i []).getD j 0

/-- Modelled from the spec: `gp.core.Model.predict(xi, zi, xt)`, whose
code is not in the available sources.  It first checks the input
dimensions eagerly (`DimensionMismatch` before any linear algebra,
spec section 7), then assembles the covariance blocks from the model's
covariance function and dispatches on the mean function's result:
a basis matrix selects intrinsic/ordinary kriging, `None` selects
simple kriging with zero mean. -/
noncomputable def Model.predict (gpModel : Model) (xi : PS) (zi : List ℝ) (xt : PS) :
    Except PredictErr (List ℝ × List ℝ) :=
  if xi.length = zi.length ∧ dimOf xi = dimOf xt then
    let n := xi.length
    let m := xt.length
    let K := toMat n n ((gpModel.covariance xi YArg.same gpModel.covparam false).matD)
    let kc := toMat n m ((gpModel.covariance xi (YArg.other xt) gpModel.covparam false).matD)
    let ktt := fun j : Fin m =>
      ((gpModel.covariance xt YArg.none gpModel.covparam true).vecD).getD j 0
    let ziv := fun i : Fin n => zi.getD i 0
    match gpModel.mean xi gpModel.meanparam, gpModel.mean xt gpModel.meanparam with
    | Option.some Pl, Option.some Ptl =>
      let q := (Pl.getD 0 []).length
      let pr := predictOK K (toMat n q Pl) kc (toMat m q Ptl) ktt ziv
      Except.ok (List.ofFn pr.1, List.ofFn pr.2)
    | _, _ =>
      let pr := krigSimple K kc ktt ziv
      Except.ok (List.ofFn pr.1, List.ofFn pr.2)
  else
    Except.error PredictErr.DimensionMismatch

/-- Source `model = gp.core.Model(mean, kernel, meanparam, covparam)`
with `mean = constant_mean` and `meanparam = None`. -/
noncomputable def model : Model :=
  { mean := constant_mean
    covariance := kernel
    meanparam := Option.none
    covparam := covparam }

/-- C7: a `model.predict(xi, zi, xt)` call with `len(xi) != len(zi)`, or
with disagreeing point dimensionalities of `xi` and `xt`, fails with
`DimensionMismatch`: the checked entry point returns the error before
touching any of the linear algebra. -/
theorem predict_dim_mismatch (gpModel : Model) (xi : PS) (zi : List ℝ) (xt : PS)
    (h : xi.length ≠ zi.length ∨ dimOf xi ≠ dimOf xt) :
    gpModel.predict xi zi xt = Except.error PredictErr.DimensionMismatch := by
  unfold Model.predict
  rw [if_neg]
  intro hc
  rcases h with h | h
  · exact h hc.1
  · exact h hc.2

/-- Witness for C7: the example model with one training point and no
observation value. -/
theorem predict_dim_mismatch_witness :
    model.predict [[(0 : ℝ)]] [] [[(0 : ℝ)]]
      = Except.error PredictErr.DimensionMismatch :=
  predict_dim_mismatch model [[(0 : ℝ)]] [] [[(0 : ℝ)]] (Or.inl (by simp))
